import Mathlib

/-!
Verification of the docling-av-transcriber transcription pipeline.

Shallow embedding of the pipeline's pure core, translated from the Python
sources:

* `docling_av_transcriber/types.py` — conversation data model, time-tag
  formatting, item rendering, and the dataclass ordering used by
  `build_docling_document`;
* `docling_av_transcriber/media/audio.py` — WAV normalization and the
  classification of the external converter's exit status;
* `docling_av_transcriber/media/video.py` — keyframe downsampling;
* `docling_av_transcriber/pipelines/asr_pipeline.py` — visual-fallback
  decision, binary-hash computation, WAV artifact preparation;
* `docling_av_transcriber/models/aliyun_bailian.py` — direct-API retry
  loop and ASR result normalization;
* `docling_av_transcriber/models/aliyun_vision.py` — per-frame captioning
  and keyframe text wrapping.

Python strings are modelled by `String` with character-list based
operations (structural recursion, so that concrete instances evaluate in
the kernel); Python floats by `ℚ`; Python ints by `ℤ`/`ℕ`; `None` by
`Option`.  External effects (the ffmpeg process, HTTP requests, the
filesystem) are passed in as explicit outcome values.
-/

/-! ### String preliminaries (models of Python `str` operations) -/

/-- Model of Python `str.lower` (ASCII case folding, as used on
extensions and ffmpeg diagnostics in the source). -/
def sToLower (s : String) : String := ⟨s.data.map Char.toLower⟩

/-- Model of Python `str.startswith`. -/
def sStartsWith (s pre : String) : Bool := pre.data.isPrefixOf s.data

/-- Model of Python `str.endswith`. -/
def sEndsWith (s post : String) : Bool := post.data.isSuffixOf s.data

/-- Model of Python slicing `s[n:]` (character based, like Python). -/
def sDrop (s : String) (n : ℕ) : String := ⟨s.data.drop n⟩

/-- Model of Python `str.lstrip()`. -/
def sTrimLeft (s : String) : String := ⟨s.data.dropWhile Char.isWhitespace⟩

/-- Model of Python `str.strip()`. -/
def sTrim (s : String) : String :=
  ⟨((s.data.dropWhile Char.isWhitespace).reverse.dropWhile Char.isWhitespace).reverse⟩

/-- Model of Python `sep.join(parts)`. -/
def sJoin (sep : String) : List String → String
  | [] => ""
  | a :: as => as.foldl (fun acc s => acc ++ sep ++ s) a

/-- Substring test on character lists (model of Python `needle in hay`). -/
def listContainsSub (needle : List Char) : List Char → Bool
  | [] => needle.isEmpty
  | a :: t => needle.isPrefixOf (a :: t) || listContainsSub needle t

/-- Model of Python `needle in hay` for strings. -/
def sContains (hay needle : String) : Bool := listContainsSub needle.data hay.data

/-- Model of Python `s.partition(sep)` for a one-character separator:
`(before, sep, after)` split at the first occurrence, or `(s, "", "")`
when the separator does not occur. -/
def pyPartitionChar (s : String) (c : Char) : String × String × String :=
  let pre := s.data.takeWhile (· ≠ c)
  match s.data.dropWhile (· ≠ c) with
  | [] => (s, "", "")
  | _ :: tail => (⟨pre⟩, ⟨[c]⟩, ⟨tail⟩)

/-- Model of Python `int(x)` on a rational (truncation toward zero). -/
def pyInt (q : ℚ) : ℤ := if 0 ≤ q then ⌊q⌋ else ⌈q⌉

/-- Digits of a natural number, zero padded on the left to `w` digits
(model of Python's `f"{n:0Nd}"` padding for nonnegative values). -/
def padNat (w : ℕ) (n : ℕ) : String :=
  let s := Nat.repr n
  ⟨List.replicate (w - s.length) '0'⟩ ++ s

/-- Model of Python `format(n, "0Nd")` on an integer. -/
def padInt (w : ℕ) (n : ℤ) : String :=
  if n < 0 then "-" ++ padNat (w - 1) n.natAbs else padNat w n.natAbs

/-! ### types.py — conversation data model -/

/-- `KEYFRAME_PREFIX` from `types.py`. -/
def KEYFRAME_TAG : String := "[[KEYFRAME_START]]"

/-- `KEYFRAME_SUFFIX` from `types.py`. -/
def KEYFRAME_END_TAG : String := "[[KEYFRAME_END]]"

/-- `_format_ms` from `types.py`: render an optional millisecond value as
`HH:MM:SS.mmm`, with placeholder `--:--:--.---` for `None`.  `divmod` is
Python floor division, modelled by `Int.fdiv`/`Int.fmod`. -/
def format_ms (ms : Option ℚ) : String :=
  match ms with
  | none => "--:--:--.---"
  | some v =>
    let ms_int : ℤ := pyInt v
    let seconds := Int.fdiv ms_int 1000
    let millis := Int.fmod ms_int 1000
    let minutes := Int.fdiv seconds 60
    let seconds2 := Int.fmod seconds 60
    let hours := Int.fdiv minutes 60
    let minutes2 := Int.fmod minutes 60
    padInt 2 hours ++ ":" ++ padInt 2 minutes2 ++ ":" ++ padInt 2 seconds2 ++ "." ++ padInt 3 millis

/-- `ConversationWord` from `types.py` (floats modelled by `ℚ`). -/
structure ConversationWord where
  text : String
  start_time : Option ℚ := none
  end_time : Option ℚ := none
deriving DecidableEq

/-- `ConversationItem` from `types.py`.  Field declaration order matters:
`@dataclass(order=True)` compares instances as tuples of the fields in
this order. -/
structure ConversationItem where
  text : String
  start_time : Option ℚ := none
  end_time : Option ℚ := none
  speaker_id : Option ℤ := none
  speaker : Option String := none
  words : List ConversationWord := []
deriving DecidableEq

/-- `ConversationItem.to_string` from `types.py`. -/
def to_string (it : ConversationItem) : String :=
  let time_tag : Option String :=
    if it.start_time.isSome ∧ it.end_time.isSome then
      some ("[time: " ++ format_ms it.start_time ++ "-" ++ format_ms it.end_time ++ "]")
    else none
  if sStartsWith it.text KEYFRAME_TAG then
    let parts := pyPartitionChar it.text '\n'
    let header := parts.1
    let sep := parts.2.1
    let rest := parts.2.2
    let header_body := sTrimLeft (sDrop header KEYFRAME_TAG.length)
    let new_header_parts :=
      [KEYFRAME_TAG]
        ++ (match time_tag with | some t => [t] | none => [])
        ++ (if header_body ≠ "" then [header_body] else [])
    let new_header := sJoin " " new_header_parts
    if sep ≠ "" then new_header ++ "\n" ++ rest else new_header
  else
    let chunks : List String :=
      (match time_tag with | some t => [t] | none => [])
        ++ (match it.speaker with | some sp => ["[speaker:" ++ sp ++ "]"] | none => [])
        ++ [it.text]
    sJoin " " chunks

/-! ### Python comparison semantics for `@dataclass(order=True)`

Python compares the dataclasses as tuples of their fields in declaration
order: the first field where `==` fails decides via `<`.  Comparing
`None` with a non-`None` value raises `TypeError`, modelled by `none` in
`Option Ordering`. -/

/-- Compare two optional rationals the way a Python tuple comparison
consults them: both `None` counts as equal, mixed raises (`none`). -/
def pyCmpQ : Option ℚ → Option ℚ → Option Ordering
  | none, none => some .eq
  | some x, some y => some (if x < y then .lt else if y < x then .gt else .eq)
  | _, _ => none

/-- Same semantics for optional integers. -/
def pyCmpZ : Option ℤ → Option ℤ → Option Ordering
  | none, none => some .eq
  | some x, some y => some (if x < y then .lt else if y < x then .gt else .eq)
  | _, _ => none

/-- Python string `<`: lexicographic by code point, a strict prefix is
smaller (structural recursion on the character lists). -/
def charListLt : List Char → List Char → Bool
  | [], [] => false
  | [], _ :: _ => true
  | _ :: _, [] => false
  | a :: as, b :: bs => decide (a < b) || (decide (a = b) && charListLt as bs)

/-- Python `a < b` on strings. -/
def sLt (a b : String) : Bool := charListLt a.data b.data

/-- Python string comparison (total, lexicographic by code point). -/
def pyCmpStr (a b : String) : Ordering :=
  if sLt a b then .lt else if sLt b a then .gt else .eq

/-- Same semantics for optional strings. -/
def pyCmpStrOpt : Option String → Option String → Option Ordering
  | none, none => some .eq
  | some x, some y => some (pyCmpStr x y)
  | _, _ => none

/-- Sequence two comparison outcomes: a decided (or erroring) earlier
field short-circuits the rest, exactly like Python's tuple comparison. -/
def pyThen : Option Ordering → Option Ordering → Option Ordering
  | some .eq, y => y
  | x, _ => x

/-- Tuple comparison of `ConversationWord` (fields in declaration order). -/
def pyCmpWord (a b : ConversationWord) : Option Ordering :=
  pyThen (some (pyCmpStr a.text b.text))
    (pyThen (pyCmpQ a.start_time b.start_time) (pyCmpQ a.end_time b.end_time))

/-- Python list comparison for the `words` field: first non-equal element
decides via the element comparison; a strict prefix is smaller. -/
def pyCmpWords : List ConversationWord → List ConversationWord → Option Ordering
  | [], [] => some .eq
  | [], _ :: _ => some .lt
  | _ :: _, [] => some .gt
  | a :: as, b :: bs => if a = b then pyCmpWords as bs else pyCmpWord a b

/-- The comparison generated by `@dataclass(order=True)` on
`ConversationItem`: tuple comparison of
`(text, start_time, end_time, speaker_id, speaker, words)`. -/
def pyCmpItem (a b : ConversationItem) : Option Ordering :=
  pyThen (some (pyCmpStr a.text b.text))
    (pyThen (pyCmpQ a.start_time b.start_time)
      (pyThen (pyCmpQ a.end_time b.end_time)
        (pyThen (pyCmpZ a.speaker_id b.speaker_id)
          (pyThen (pyCmpStrOpt a.speaker b.speaker) (pyCmpWords a.words b.words)))))

/-- `ConversationItem.__lt__`, the relation `sorted` uses in
`build_docling_document` (`none` models a `TypeError`). -/
def pyLtItem (a b : ConversationItem) : Option Bool :=
  (pyCmpItem a b).map (fun o => o == Ordering.lt)

/-! ### media/audio.py — WAV normalization -/

/-- Last path component, then the `Path.suffix` rule of `pathlib`: the
extension begins at the last `.` of the name, provided that dot is
neither the first nor the last character of the name. -/
def pyName (p : String) : String := ⟨(p.data.reverse.takeWhile (· ≠ '/')).reverse⟩

/-- Model of `pathlib.Path(p).suffix`. -/
def pySuffix (p : String) : String :=
  let name := (pyName p).data
  let afterRev := name.reverse.takeWhile (· ≠ '.')
  if '.' ∈ name ∧ afterRev ≠ [] ∧ afterRev.length + 1 < name.length then
    ⟨'.' :: afterRev.reverse⟩
  else ""

/-- `_NO_AUDIO_ERROR_MARKERS` from `media/audio.py`. -/
def NO_AUDIO_ERROR_MARKERS : List String :=
  ["Output file does not contain any stream",
   "Stream specifier \x27:a\x27",
   "matches no streams"]

/-- The marker test from `ensure_wav_audio`: any marker, lowercased,
occurring in the lowercased stderr. -/
def has_no_audio_marker (stderr : String) : Bool :=
  NO_AUDIO_ERROR_MARKERS.any (fun m => sContains (sToLower stderr) (sToLower m))

/-- Outcome of the external `ffmpeg` conversion process. -/
structure FfmpegRun where
  returncode : ℤ
  stderr : String
deriving DecidableEq

/-- Errors raised by `ensure_wav_audio`: `NoAudioStreamError` and the
generic `RuntimeError` carrying the ffmpeg stderr. -/
inductive AudioError where
  | noAudioStream
  | conversionFailed (stderr : String)
deriving DecidableEq

instance {ε α : Type} [DecidableEq ε] [DecidableEq α] : DecidableEq (Except ε α)
  | .error x, .error y =>
    if h : x = y then .isTrue (by rw [h]) else .isFalse (by intro hc; cases hc; exact h rfl)
  | .error _, .ok _ => .isFalse (by intro h; cases h)
  | .ok _, .error _ => .isFalse (by intro h; cases h)
  | .ok x, .ok y =>
    if h : x = y then .isTrue (by rw [h]) else .isFalse (by intro hc; cases hc; exact h rfl)

/-- Observable outcome of `ensure_wav_audio`: the returned path or raised
error, whether the converter ran (a fresh temporary file was created),
and whether that temporary file was deleted (`tmp.unlink`). -/
structure EnsureWavOut where
  result : Except AudioError String
  ranConversion : Bool
  tmpDeleted : Bool
deriving DecidableEq

/-- `ensure_wav_audio` from `media/audio.py`.  `source` is the input
path, `tmp` the fresh temporary path `tempfile.mkstemp` would produce,
`run` the outcome of the ffmpeg invocation. -/
def ensure_wav_audio (source tmp : String) (run : FfmpegRun) : EnsureWavOut :=
  if sToLower (pySuffix source) = ".wav" then
    { result := .ok source, ranConversion := false, tmpDeleted := false }
  else if run.returncode ≠ 0 then
    if has_no_audio_marker run.stderr then
      { result := .error .noAudioStream, ranConversion := true, tmpDeleted := true }
    else
      { result := .error (.conversionFailed run.stderr), ranConversion := true, tmpDeleted := true }
  else
    { result := .ok tmp, ranConversion := true, tmpDeleted := false }

/-- `AsrPipelineLite._prepare_wav_artifact` error handling: a
`NoAudioStreamError` from `ensure_wav_audio` is consumed and turned into
`None`; any other error propagates. -/
def prepare_wav_artifact (e : EnsureWavOut) : Except AudioError (Option String) :=
  match e.result with
  | .ok p => .ok (some p)
  | .error .noAudioStream => .ok none
  | .error err => .error err

/-! ### media/video.py — keyframe downsampling -/

/-- Python slicing `l[::step]` for `step ≥ 1` (for `step = 0` Python
raises; the source always passes `step ≥ 1` via `max(1, ...)`). -/
def sliceEvery : List α → ℕ → List α
  | [], _ => []
  | a :: l, step => a :: sliceEvery (l.drop (step - 1)) step
termination_by l _ => l.length
decreasing_by simp; omega

/-- The downsampling step of `extract_keyframes_with_timestamps`
(`media/video.py` lines 119-122): when more than `max_frames` pairs were
extracted, keep every `step`-th pair with `step = max(1, len // max)`,
then truncate to `max_frames`. -/
def downsample_pairs (pairs : List α) (max_frames : ℕ) : List α :=
  if max_frames < pairs.length then
    let step := max 1 (pairs.length / max_frames)
    (sliceEvery pairs step).take max_frames
  else pairs

/-! ### pipelines/asr_pipeline.py — fallback decision and hashing -/

/-- `VIDEO_EXTENSIONS` from `pipelines/asr_pipeline.py`. -/
def VIDEO_EXTENSIONS : List String := [".mp4", ".mov", ".avi", ".mkv", ".webm"]

/-- `AsrPipelineLite._is_video_file`: false for `None`/empty filename,
otherwise lowercased-extension membership test. -/
def is_video_file (filename : Option String) : Bool :=
  match filename with
  | none => false
  | some s => if s = "" then false else VIDEO_EXTENSIONS.any (fun e => sEndsWith (sToLower s) e)

/-- `AsrPipelineLite._should_use_visual_fallback`. -/
def should_use_visual_fallback {V : Type} (is_video : Bool)
    (conversation : List ConversationItem) (vision_provider : Option V) : Bool :=
  is_video && conversation.isEmpty && vision_provider.isSome

/-- Errors during vision-provider construction: `VisionServiceError`
(e.g. a missing API key) or any other exception. -/
inductive VisionInitError where
  | visionServiceError (msg : String)
  | otherError
deriving DecidableEq

/-- `AsrPipelineLite._init_default_vision_provider`: a construction
failure of either kind is swallowed and yields no provider instead of
raising. -/
def init_default_vision_provider {V : Type} (ctor : Except VisionInitError V) : Option V :=
  match ctor with
  | .ok v => some v
  | .error _ => none

/-- Chunk size used by `_compute_binary_hash` (`1024 * 1024`). -/
def CHUNK_SIZE : ℕ := 1024 * 1024

/-- Split a list into consecutive chunks of `n` elements (the last chunk
may be shorter); models reading a file in fixed-size blocks. -/
def chunksOf (n : ℕ) : List α → List (List α)
  | [] => []
  | a :: rest => (a :: rest.take (n - 1)) :: chunksOf n (rest.drop (n - 1))
termination_by l => l.length
decreasing_by simp; omega

/-- `AsrPipelineLite._compute_binary_hash`.  The incremental digest is
abstracted: `init`/`upd`/`digest` model `hashlib.sha256()`, `.update`,
`.hexdigest`; `hashName` models the fallback `sha256(filename bytes)`.
`input` is `some bytes` when the source is readable and `none` when
reading raises, in which case only the filename is hashed. -/
def compute_binary_hash {S Out : Type} (init : S) (upd : S → List ℕ → S)
    (digest : S → Out) (hashName : String → Out)
    (input : Option (List ℕ)) (filename : String) : Out :=
  match input with
  | some bytes => digest ((chunksOf CHUNK_SIZE bytes).foldl upd init)
  | none => hashName filename

/-! ### models/aliyun_bailian.py — ASR result normalization -/

/-- Python truthiness for an optional number (`None`, `0` falsy). -/
def pyTruthyQ : Option ℚ → Bool
  | none => false
  | some q => q ≠ 0

/-- Python `a or b` on optional numbers. -/
def pyOrQ (a b : Option ℚ) : Option ℚ := if pyTruthyQ a then a else b

/-- Python truthiness for an optional integer. -/
def pyTruthyZ : Option ℤ → Bool
  | none => false
  | some z => z ≠ 0

/-- Python `a or b` on optional integers. -/
def pyOrZ (a b : Option ℤ) : Option ℤ := if pyTruthyZ a then a else b

/-- Python truthiness for an optional string (`None`, `""` falsy). -/
def pyTruthyStr : Option String → Bool
  | none => false
  | some s => s ≠ ""

/-- Python `a or b` on optional strings. -/
def pyOrStr (a b : Option String) : Option String := if pyTruthyStr a then a else b

/-- A word dict inside an ASR segment; each key the source reads is an
optional field (`dict.get` returns `None` for a missing key). -/
structure WordDict where
  text : Option String := none
  word : Option String := none
  start : Option ℚ := none
  start_time : Option ℚ := none
  «end» : Option ℚ := none
  end_time : Option ℚ := none
deriving DecidableEq

/-- A segment dict of the ASR result, with the keys `_parse_items`
reads. -/
structure SegmentDict where
  text : Option String := none
  sentence : Option String := none
  start : Option ℚ := none
  begin_time : Option ℚ := none
  «end» : Option ℚ := none
  end_time : Option ℚ := none
  speaker_id : Option ℤ := none
  speaker : Option ℤ := none
  speaker_label : Option String := none
  words : List WordDict := []
deriving DecidableEq

/-- The ASR result dict: `_parse_items` reads
`result.get("segments") or result.get("sentences") or []`
(an empty list is falsy and falls through). -/
structure AsrResultDict where
  segments : Option (List SegmentDict) := none
  sentences : Option (List SegmentDict) := none
deriving DecidableEq

/-- Python truthiness for an optional list (`None`, `[]` falsy). -/
def pyTruthyList {α : Type} : Option (List α) → Bool
  | none => false
  | some l => !l.isEmpty

/-- Python `a or b` on optional lists. -/
def pyOrList {α : Type} (a b : Option (List α)) : Option (List α) :=
  if pyTruthyList a then a else b

/-- `AliyunBailianAsrClient._parse_items` from `aliyun_bailian.py`:
normalize the heterogeneous ASR result into `ConversationItem`s, with
every field alias resolved by Python `or` (truthiness). -/
def parse_items (result : AsrResultDict) : List ConversationItem :=
  let segments := (pyOrList result.segments result.sentences).getD []
  segments.map fun seg =>
    { text := sTrim ((pyOrStr seg.text seg.sentence).getD "")
      start_time := pyOrQ seg.start seg.begin_time
      end_time := pyOrQ seg.«end» seg.end_time
      speaker_id := pyOrZ seg.speaker_id seg.speaker
      speaker := seg.speaker_label
      words := seg.words.map fun w =>
        { text := (pyOrStr w.text w.word).getD ""
          start_time := pyOrQ w.start w.start_time
          end_time := pyOrQ w.«end» w.end_time } }

/-! ### models/aliyun_bailian.py — direct-API retry loop -/

/-- Body of an HTTP response of the direct endpoint: `response.json()`
either raises (`badJson`) or yields a dict with an optional `code` field
and the payload handed to `_parse_items`. -/
inductive RespBody where
  | badJson
  | json (code : Option String) (result : AsrResultDict)
deriving DecidableEq

/-- Outcome of one `requests.post` in `_transcribe_direct`: a network
exception or a response with a status code and a body. -/
inductive AttemptOut where
  | netError
  | resp (status : ℕ) (body : RespBody)
deriving DecidableEq

/-- The retry condition of `_transcribe_direct`: server errors
(status ≥ 500) and network exceptions are retryable, everything else
breaks the loop. -/
def retryable : AttemptOut → Bool
  | .netError => true
  | .resp status _ => 500 ≤ status

/-- `AsrServiceError` causes raised by `_transcribe_direct`. -/
inductive AsrErr where
  | network
  | badStatus (status : ℕ)
  | badJson
  | errorCode (code : String)
deriving DecidableEq

/-- How the `for attempt in range(1, retries+1)` loop ends: with a
response that broke the loop, or raising after a network error on the
final attempt. -/
inductive LoopExit where
  | response (status : ℕ) (body : RespBody)
  | netRaise
deriving DecidableEq

/-- Observable trace of the retry loop: its exit, the backoff sleeps
performed (`time.sleep(2 ** attempt)`), and the number of attempts. -/
structure LoopOut where
  exit : LoopExit
  sleeps : List ℕ
  attempts : ℕ
deriving DecidableEq

/-- The attempt loop of `_transcribe_direct`.  `out a` is the outcome of
the request on attempt `a` (attempts are 1-based); `fuel` bounds the
recursion and is `retries + 1 - attempt` at every reachable call. -/
def loopGo (out : ℕ → AttemptOut) (retries : ℕ) : ℕ → ℕ → LoopOut
  | _, 0 => { exit := .netRaise, sleeps := [], attempts := 0 }
  | attempt, fuel + 1 =>
    match out attempt with
    | .netError =>
      if attempt < retries then
        { exit := (loopGo out retries (attempt + 1) fuel).exit,
          sleeps := 2 ^ attempt :: (loopGo out retries (attempt + 1) fuel).sleeps,
          attempts := (loopGo out retries (attempt + 1) fuel).attempts + 1 }
      else { exit := .netRaise, sleeps := [], attempts := 1 }
    | .resp status body =>
      if 500 ≤ status ∧ attempt < retries then
        { exit := (loopGo out retries (attempt + 1) fuel).exit,
          sleeps := 2 ^ attempt :: (loopGo out retries (attempt + 1) fuel).sleeps,
          attempts := (loopGo out retries (attempt + 1) fuel).attempts + 1 }
      else { exit := .response status body, sleeps := [], attempts := 1 }

/-- The post-loop processing of `_transcribe_direct`: non-200 status,
undecodable JSON, and a non-`Success` `code` each raise
`AsrServiceError`; otherwise the payload is parsed. -/
def processResponse : LoopExit → Except AsrErr (List ConversationItem)
  | .netRaise => .error .network
  | .response status body =>
    if status ≠ 200 then .error (.badStatus status)
    else
      match body with
      | .badJson => .error .badJson
      | .json code result =>
        if code = none ∨ code = some "Success" then .ok (parse_items result)
        else
          match code with
          | some c => .error (.errorCode c)
          | none => .error .badJson

/-- Observable outcome of `_transcribe_direct`. -/
structure DirectRun where
  result : Except AsrErr (List ConversationItem)
  sleeps : List ℕ
  attempts : ℕ

/-- `AliyunBailianAsrClient._transcribe_direct`: run the attempt loop
starting at attempt 1, then classify the final response. -/
def transcribe_direct (out : ℕ → AttemptOut) (retries : ℕ) : DirectRun :=
  let r := loopGo out retries 1 retries
  { result := processResponse r.exit, sleeps := r.sleeps, attempts := r.attempts }

/-! ### models/aliyun_vision.py — keyframe captioning -/

/-- Round half to even on a rational, the rounding Python's fixed-point
formatting applies. -/
def round_half_even (q : ℚ) : ℤ :=
  let f := ⌊q⌋
  if q - f < 1 / 2 then f
  else if 1 / 2 < q - f then f + 1
  else if f % 2 = 0 then f else f + 1

/-- Model of Python `f"{q:.3f}"` for the timestamps written into the
keyframe header (timestamps parsed from `pts_time` are nonnegative). -/
def fmt3 (q : ℚ) : String :=
  let m := round_half_even (q * 1000)
  let sign := if m < 0 then "-" else ""
  sign ++ Nat.repr (m.natAbs / 1000) ++ "." ++ padNat 3 (m.natAbs % 1000)

/-- `AliyunVisionClient._wrap_keyframe_text`: wrap a description in the
reserved marker pair, the header line carrying frame index and
timestamp. -/
def wrap_keyframe_text (description : String) (timestamp_sec : ℚ) (index : ℕ) : String :=
  KEYFRAME_TAG ++ "frame=" ++ Nat.repr index ++ ";time=" ++ fmt3 timestamp_sec ++ "s"
    ++ "\n" ++ description ++ "\n" ++ KEYFRAME_END_TAG

/-- The `ConversationItem` built by `describe_frames` for a successfully
captioned frame: `start_time = int(timestamp_sec * 1000)`,
`end_time = start_time + 1`. -/
def mk_keyframe_item (index : ℕ) (timestamp_sec : ℚ) (description : String) : ConversationItem :=
  let start_ms : ℤ := pyInt (timestamp_sec * 1000)
  { text := wrap_keyframe_text description timestamp_sec index
    start_time := some (start_ms : ℚ)
    end_time := some ((start_ms : ℚ) + 1)
    speaker_id := none
    speaker := none
    words := [] }

/-- The loop body of `AliyunVisionClient.describe_frames`:
`cap idx frame ts` is the outcome of `_describe_single_frame` (an
`Except` error models a raised `VisionServiceError`, which the loop
catches and skips). -/
def describe_frames_go {F : Type} (cap : ℕ → F → ℚ → Except String String) :
    ℕ → List (F × ℚ) → List ConversationItem
  | _, [] => []
  | idx, (frame, ts) :: rest =>
    match cap idx frame ts with
    | .error _ => describe_frames_go cap (idx + 1) rest
    | .ok desc => mk_keyframe_item idx ts desc :: describe_frames_go cap (idx + 1) rest

/-- `AliyunVisionClient.describe_frames` (`enumerate(frames, start=1)`). -/
def describe_frames {F : Type} (cap : ℕ → F → ℚ → Except String String)
    (frames : List (F × ℚ)) : List ConversationItem :=
  describe_frames_go cap 1 frames

/-! ### Spec-modelled definitions for refinement comparisons -/

/-- Modelled from the spec (§4.6, C2's reading): the renderer always
prepends a time-range tag to a non-keyframe item, rendering an unset
bound with the fixed placeholder. -/
def spec_render_nonkeyframe (it : ConversationItem) : String :=
  let tag := "[time: " ++ format_ms it.start_time ++ "-" ++ format_ms it.end_time ++ "]"
  sJoin " " ([tag]
    ++ (match it.speaker with | some sp => ["[speaker:" ++ sp ++ "]"] | none => [])
    ++ [it.text])

/-- The amended §4.6 rule matching the source: a time tag is prepended
only when both bounds are set; with either bound unset no time tag
appears at all. -/
def amended_render_nonkeyframe (it : ConversationItem) : String :=
  match it.start_time, it.end_time with
  | some s, some e =>
    sJoin " " (["[time: " ++ format_ms (some s) ++ "-" ++ format_ms (some e) ++ "]"]
      ++ (match it.speaker with | some sp => ["[speaker:" ++ sp ++ "]"] | none => [])
      ++ [it.text])
  | _, _ =>
    sJoin " " ((match it.speaker with | some sp => ["[speaker:" ++ sp ++ "]"] | none => [])
      ++ [it.text])

/-- Modelled from the spec (§4.6/§8, C1's reading): lexicographic
comparison of the tuple `(start_time, end_time, text)`. -/
def spec_time_lex_lt (a b : ConversationItem) : Option Bool :=
  (pyThen (pyCmpQ a.start_time b.start_time)
    (pyThen (pyCmpQ a.end_time b.end_time) (some (pyCmpStr a.text b.text)))).map
    (fun o => o == Ordering.lt)

/-- Strict order on optional timestamps, defined only when both are
present. -/
def optQLtProp (a b : Option ℚ) : Prop := ∃ x y, a = some x ∧ b = some y ∧ x < y

/-- The amended ordering statement: lexicographic comparison of
`(text, start_time, end_time)`, i.e. the dataclass field declaration
order with trivial trailing fields — primarily by `text`. -/
def text_first_lex_lt (a b : ConversationItem) : Prop :=
  sLt a.text b.text = true
    ∨ (a.text = b.text
        ∧ (optQLtProp a.start_time b.start_time
            ∨ (a.start_time = b.start_time ∧ optQLtProp a.end_time b.end_time)))

/-! ### Theorems -/

/-- C4: the visual-fallback path runs if and only if the filename is
classified as video by extension, the speech-to-text stage produced zero
conversation items, and a vision provider is configured; it never runs
for non-video input, and a vision-provider initialization failure yields
no provider (disabling the fallback) instead of failing the pipeline. -/
theorem visual_fallback_trigger_iff :
    ∀ {V : Type} (filename : Option String) (conversation : List ConversationItem)
      (provider : Option V),
      (should_use_visual_fallback (is_video_file filename) conversation provider = true ↔
          is_video_file filename = true ∧ conversation = [] ∧ provider.isSome = true)
        ∧ (∀ e : VisionInitError,
            init_default_vision_provider (V := V) (.error e) = none
              ∧ should_use_visual_fallback (is_video_file filename) conversation
                  (init_default_vision_provider (V := V) (.error e)) = false)
        ∧ should_use_visual_fallback false conversation provider = false
        ∧ is_video_file (some "recording.wav") = false := by
  intro V filename conversation provider
  refine ⟨?_, fun e => ⟨rfl, ?_⟩, ?_, by decide⟩
  · simp [should_use_visual_fallback, List.isEmpty_iff, and_assoc]
  · simp [should_use_visual_fallback, init_default_vision_provider]
  · simp [should_use_visual_fallback]

/-- C5: an input whose extension is `.wav` (case-insensitively) bypasses
conversion entirely and is returned unchanged; any other extension runs
the converter and, on success, returns the fresh temporary path, which
is distinct from the source. -/
theorem ensure_wav_bypass_and_fresh_tmp :
    ∀ (source tmp : String) (run : FfmpegRun),
      (sToLower (pySuffix source) = ".wav" →
        ensure_wav_audio source tmp run =
          { result := .ok source, ranConversion := false, tmpDeleted := false })
        ∧ (sToLower (pySuffix source) ≠ ".wav" → run.returncode = 0 → tmp ≠ source →
            (ensure_wav_audio source tmp run).result = .ok tmp
              ∧ (ensure_wav_audio source tmp run).ranConversion = true
              ∧ tmp ≠ source) := by
  intro source tmp run
  constructor
  · intro h
    simp [ensure_wav_audio, h]
  · intro h h0 hne
    refine ⟨?_, ?_, hne⟩ <;> simp [ensure_wav_audio, h, h0]

/-- Witness for C5 at concrete inputs: `dir/clip.WAV` is returned
unchanged without conversion, `talk.mp3` yields the fresh temporary. -/
theorem ensure_wav_bypass_and_fresh_tmp_w :
    ensure_wav_audio "dir/clip.WAV" "/tmp/tmpabc.wav" { returncode := 0, stderr := "" } =
        { result := .ok "dir/clip.WAV", ranConversion := false, tmpDeleted := false }
      ∧ (ensure_wav_audio "talk.mp3" "/tmp/tmp123.wav" { returncode := 0, stderr := "" }).result =
          .ok "/tmp/tmp123.wav" := by
  constructor
  · exact (ensure_wav_bypass_and_fresh_tmp "dir/clip.WAV" "/tmp/tmpabc.wav" _).1 (by decide)
  · exact ((ensure_wav_bypass_and_fresh_tmp "talk.mp3" "/tmp/tmp123.wav" _).2
      (by decide) rfl (by decide)).1

/-- C6: on a non-zero converter exit the partial temporary file is
deleted; a diagnostic stream matching one of the no-audio markers
(case-insensitively) raises the distinguished `NoAudioStream` outcome,
which `_prepare_wav_artifact` consumes into a `none` audio path; any
other non-zero exit raises a fatal `ConversionFailed` carrying the
stderr text, which does propagate. -/
theorem no_audio_stream_classification :
    ∀ (source tmp : String) (run : FfmpegRun),
      sToLower (pySuffix source) ≠ ".wav" → run.returncode ≠ 0 →
      (has_no_audio_marker run.stderr = true →
          ensure_wav_audio source tmp run =
              { result := .error .noAudioStream, ranConversion := true, tmpDeleted := true }
            ∧ prepare_wav_artifact (ensure_wav_audio source tmp run) = .ok none)
        ∧ (has_no_audio_marker run.stderr = false →
            ensure_wav_audio source tmp run =
                { result := .error (.conversionFailed run.stderr), ranConversion := true,
                  tmpDeleted := true }
              ∧ prepare_wav_artifact (ensure_wav_audio source tmp run) =
                  .error (.conversionFailed run.stderr)) := by
  intro source tmp run hsuf hrc
  constructor
  · intro hm
    refine ⟨?_, ?_⟩ <;> simp [ensure_wav_audio, prepare_wav_artifact, hsuf, hrc, hm]
  · intro hm
    refine ⟨?_, ?_⟩ <;> simp [ensure_wav_audio, prepare_wav_artifact, hsuf, hrc, hm]

/-- Witness for C6 at concrete inputs: a marker-matching stderr is
consumed into a `none` audio path, any other stderr propagates as a
fatal error. -/
theorem no_audio_stream_classification_w :
    prepare_wav_artifact
        (ensure_wav_audio "clip.mp4" "/tmp/t.wav"
          { returncode := 1, stderr := "Output file does not contain any stream" }) = .ok none
      ∧ prepare_wav_artifact
          (ensure_wav_audio "clip.mp4" "/tmp/t.wav" { returncode := 1, stderr := "Disk full" }) =
        .error (.conversionFailed "Disk full") := by
  constructor
  · exact ((no_audio_stream_classification "clip.mp4" "/tmp/t.wav" _ (by decide) (by decide)).1
      (by decide)).2
  · exact ((no_audio_stream_classification "clip.mp4" "/tmp/t.wav" _ (by decide) (by decide)).2
      (by decide)).2

/-- C10: `_parse_items` resolves field aliases by truthiness, not
presence: a present-but-zero `start` falls through to `begin_time` (and
to `None` when that is absent), symmetrically for `end`/`end_time`, and
for `start`/`start_time` and `text`/`word` on words, where an empty
primary string falls through to the alias or to the empty string. -/
theorem parse_items_truthiness_aliasing :
    ∀ (seg : SegmentDict) (w : WordDict),
      (seg.start = some 0 → seg.begin_time = none →
        (parse_items { segments := some [seg] }).map (·.start_time) = [none])
        ∧ (seg.«end» = some 0 → seg.end_time = none →
            (parse_items { segments := some [seg] }).map (·.end_time) = [none])
        ∧ (seg.words = [w] → w.start = some 0 → w.start_time = none →
            (parse_items { segments := some [seg] }).map (·.words.map (·.start_time)) = [[none]])
        ∧ (seg.words = [w] → w.text = some "" → w.word = none →
            (parse_items { segments := some [seg] }).map (·.words.map (·.text)) = [[""]])
        ∧ (∀ b : Option ℚ, pyOrQ (some 0) b = b ∧ pyOrQ none b = b)
        ∧ (∀ b : Option String, pyOrStr (some "") b = b ∧ pyOrStr none b = b) := by
  intro seg w
  refine ⟨?_, ?_, ?_, ?_, ?_, ?_⟩
  · intro h1 h2
    simp [parse_items, pyOrList, pyTruthyList, pyOrQ, pyTruthyQ, h1, h2]
  · intro h1 h2
    simp [parse_items, pyOrList, pyTruthyList, pyOrQ, pyTruthyQ, h1, h2]
  · intro hw h1 h2
    simp [parse_items, pyOrList, pyTruthyList, pyOrQ, pyTruthyQ, hw, h1, h2]
  · intro hw h1 h2
    simp [parse_items, pyOrList, pyTruthyList, pyOrStr, pyTruthyStr, hw, h1, h2]
  · intro b
    exact ⟨by simp [pyOrQ, pyTruthyQ], by simp [pyOrQ, pyTruthyQ]⟩
  · intro b
    exact ⟨by simp [pyOrStr, pyTruthyStr], by simp [pyOrStr, pyTruthyStr]⟩

/-- Witness for C10 at a concrete segment: `start = 0` with no
`begin_time` produces `start_time = None`. -/
theorem parse_items_truthiness_aliasing_w :
    (parse_items
        { segments :=
            some [{ start := some 0, «end» := some 0,
                    words := [{ text := some "", start := some 0 }] }] }).map
        (·.start_time) = [none] :=
  (parse_items_truthiness_aliasing
    { start := some 0, «end» := some 0, words := [{ text := some "", start := some 0 }] }
    { text := some "", start := some 0 }).1 rfl rfl

theorem chunksOf_flatten {α : Type} (n : ℕ) (l : List α) : (chunksOf n l).flatten = l := by
  generalize hk : l.length = k
  induction k using Nat.strong_induction_on generalizing l with
  | _ k ih =>
    match l with
    | [] => simp [chunksOf]
    | a :: rest =>
      rw [chunksOf]
      have hlt : (rest.drop (n - 1)).length < k := by
        subst hk; simp; omega
      simp only [List.flatten_cons, ih _ hlt (rest.drop (n - 1)) rfl]
      simp [List.take_append_drop]

theorem chunksOf_foldl_upd {S : Type} (n : ℕ) (upd : S → List ℕ → S)
    (hu : ∀ s a b, upd s (a ++ b) = upd (upd s a) b) (hnil : ∀ s, upd s [] = s) :
    ∀ (l : List ℕ) (s : S), (chunksOf n l).foldl upd s = upd s l := by
  intro l
  generalize hk : l.length = k
  induction k using Nat.strong_induction_on generalizing l with
  | _ k ih =>
    match l with
    | [] => intro s; simp [chunksOf, hnil]
    | a :: rest =>
      intro s
      rw [chunksOf]
      have hlt : (rest.drop (n - 1)).length < k := by
        subst hk; simp; omega
      simp only [List.foldl_cons, ih _ hlt (rest.drop (n - 1)) rfl]
      rw [← hu]
      have : (a :: rest.take (n - 1)) ++ rest.drop (n - 1) = a :: rest := by
        simp [List.take_append_drop]
      rw [this]

/-- C7: the content fingerprint is a function of exactly the input byte
sequence — chunked digesting equals digesting the whole sequence (given
the incremental-hash contract), it is independent of the declared
filename, and only an unreadable input falls back to hashing the
filename, so the computation is total. -/
theorem compute_binary_hash_pure_in_bytes :
    ∀ {S Out : Type} (init : S) (upd : S → List ℕ → S) (digest : S → Out)
      (hashName : String → Out) (bytes : List ℕ) (f1 f2 : String),
      (∀ s a b, upd s (a ++ b) = upd (upd s a) b) → (∀ s, upd s [] = s) →
      compute_binary_hash init upd digest hashName (some bytes) f1 =
          compute_binary_hash init upd digest hashName (some bytes) f2
        ∧ compute_binary_hash init upd digest hashName (some bytes) f1 = digest (upd init bytes)
        ∧ compute_binary_hash init upd digest hashName none f1 = hashName f1 := by
  intro S Out init upd digest hashName bytes f1 f2 hu hnil
  refine ⟨rfl, ?_, rfl⟩
  simp [compute_binary_hash, chunksOf_foldl_upd CHUNK_SIZE upd hu hnil]

/-- Witness for C7: with a concatenation hasher, identical bytes under
different filenames produce identical fingerprints, and an unreadable
input falls back to the filename hash. -/
theorem compute_binary_hash_pure_in_bytes_w :
    compute_binary_hash ([] : List ℕ) (· ++ ·) id (fun f => f.data.map Char.toNat)
          (some [1, 2, 3]) "a.mp4" =
        compute_binary_hash ([] : List ℕ) (· ++ ·) id (fun f => f.data.map Char.toNat)
          (some [1, 2, 3]) "b.mp4"
      ∧ compute_binary_hash ([] : List ℕ) (· ++ ·) id (fun f => f.data.map Char.toNat)
          none "ab" = [97, 98] := by
  have h := compute_binary_hash_pure_in_bytes ([] : List ℕ) (· ++ ·) id
    (fun f => f.data.map Char.toNat) [1, 2, 3] "a.mp4" "b.mp4"
    (fun s a b => (List.append_assoc s a b).symm) (fun s => List.append_nil s)
  have h2 := compute_binary_hash_pure_in_bytes ([] : List ℕ) (· ++ ·) id
    (fun f => f.data.map Char.toNat) [1, 2, 3] "ab" "ab"
    (fun s a b => (List.append_assoc s a b).symm) (fun s => List.append_nil s)
  refine ⟨h.1, ?_⟩
  rw [h2.2.2]
  decide

theorem describe_frames_go_spec {F : Type} (cap : ℕ → F → ℚ → Except String String) :
    ∀ (frames : List (F × ℚ)) (idx : ℕ),
      describe_frames_go cap idx frames =
        (frames.enumFrom idx).filterMap (fun p =>
          match cap p.1 p.2.1 p.2.2 with
          | .error _ => none
          | .ok desc => some (mk_keyframe_item p.1 p.2.2 desc)) := by
  intro frames
  induction frames with
  | nil => intro idx; simp [describe_frames_go]
  | cons hd tl ih =>
    intro idx
    obtain ⟨frame, ts⟩ := hd
    cases h : cap idx frame ts <;>
      simp [describe_frames_go, List.enumFrom, List.filterMap_cons, h, ih]

/-- C9: `describe_frames` yields exactly one item per frame whose
captioning succeeds, in input order (a filter-map over the 1-based
enumeration of the frames; failed frames are skipped, never aborting the
batch), and every produced item has `start_time` the frame timestamp in
milliseconds, `end_time = start_time + 1`, and its text wrapped in the
keyframe marker pair with index and timestamp in the header line. -/
theorem describe_frames_order_and_fields :
    ∀ {F : Type} (cap : ℕ → F → ℚ → Except String String) (frames : List (F × ℚ)),
      describe_frames cap frames =
          (frames.enumFrom 1).filterMap (fun p =>
            match cap p.1 p.2.1 p.2.2 with
            | .error _ => none
            | .ok desc => some (mk_keyframe_item p.1 p.2.2 desc))
        ∧ ∀ (idx : ℕ) (ts : ℚ) (desc : String),
            (mk_keyframe_item idx ts desc).start_time = some ((pyInt (ts * 1000) : ℤ) : ℚ)
              ∧ (mk_keyframe_item idx ts desc).end_time =
                  (mk_keyframe_item idx ts desc).start_time.map (· + 1)
              ∧ (mk_keyframe_item idx ts desc).text =
                  KEYFRAME_TAG ++ "frame=" ++ Nat.repr idx ++ ";time=" ++ fmt3 ts ++ "s"
                    ++ "\n" ++ desc ++ "\n" ++ KEYFRAME_END_TAG := by
  intro F cap frames
  refine ⟨describe_frames_go_spec cap frames 1, ?_⟩
  intro idx ts desc
  exact ⟨rfl, rfl, rfl⟩

theorem sliceEvery_sublist {α : Type} : ∀ (l : List α) (k : ℕ), (sliceEvery l k).Sublist l := by
  intro l k
  generalize hm : l.length = m
  induction m using Nat.strong_induction_on generalizing l with
  | _ m ih =>
    match l with
    | [] => simp [sliceEvery]
    | a :: rest =>
      rw [sliceEvery]
      refine List.Sublist.cons₂ a ?_
      have hlt : (rest.drop (k - 1)).length < m := by subst hm; simp; omega
      exact (ih _ hlt (rest.drop (k - 1)) rfl).trans (List.drop_sublist (k - 1) rest)

theorem sliceEvery_length {α : Type} (k : ℕ) (hk : 1 ≤ k) :
    ∀ l : List α, (sliceEvery l k).length = (l.length + k - 1) / k := by
  intro l
  generalize hm : l.length = m
  induction m using Nat.strong_induction_on generalizing l with
  | _ m ih =>
    match l with
    | [] =>
      subst hm
      simp only [sliceEvery, List.length_nil, Nat.zero_add]
      exact (Nat.div_eq_of_lt (by omega)).symm
    | a :: rest =>
      rw [sliceEvery]
      have hlt : (rest.drop (k - 1)).length < m := by subst hm; simp; omega
      have hrec := ih _ hlt (rest.drop (k - 1)) rfl
      have hdl : (rest.drop (k - 1)).length = rest.length - (k - 1) := List.length_drop _ _
      subst hm
      simp only [List.length_cons, hrec, hdl]
      have hstep : rest.length + 1 + k - 1 = rest.length + k := by omega
      rw [hstep, Nat.add_div_right _ (by omega : 0 < k)]
      rcases le_or_lt (k - 1) rest.length with hle | hgt
      · have heq : rest.length - (k - 1) + k - 1 = rest.length := by omega
        rw [heq]
      · have h0 : rest.length - (k - 1) = 0 := by omega
        rw [h0, Nat.div_eq_of_lt (show 0 + k - 1 < k by omega),
          Nat.div_eq_of_lt (show rest.length < k by omega)]

/-- C3: when more than `max_frames` aligned pairs were extracted, the
downsampling step (stride `max 1 (N / M)`, then truncation to
`max_frames`) returns exactly `max_frames` pairs, a sublist of the input
(hence a subsequence preserving the input's temporal order, expressed by
preservation of every pairwise relation). -/
theorem downsample_pairs_spec :
    ∀ {α : Type} (pairs : List α) (M : ℕ), M < pairs.length →
      (downsample_pairs pairs M).Sublist pairs
        ∧ (downsample_pairs pairs M).length ≤ M
        ∧ (downsample_pairs pairs M).length = M
        ∧ ∀ (R : α → α → Prop), pairs.Pairwise R → (downsample_pairs pairs M).Pairwise R := by
  intro α pairs M hM
  have hd : downsample_pairs pairs M =
      (sliceEvery pairs (max 1 (pairs.length / M))).take M := by
    simp [downsample_pairs, hM]
  have hk1 : 1 ≤ max 1 (pairs.length / M) := le_max_left _ _
  have hsub : (downsample_pairs pairs M).Sublist pairs := by
    rw [hd]
    exact (List.take_sublist _ _).trans (sliceEvery_sublist pairs _)
  have hlen : (downsample_pairs pairs M).length = M := by
    rw [hd, List.length_take]
    refine Nat.min_eq_left ?_
    rw [sliceEvery_length _ hk1 pairs]
    rcases Nat.eq_zero_or_pos M with hM0 | hM0
    · subst hM0
      exact Nat.zero_le _
    · have hkval : max 1 (pairs.length / M) = pairs.length / M := by
        have h1 : 1 ≤ pairs.length / M := (Nat.one_le_div_iff hM0).mpr (by omega)
        exact max_eq_right h1
      rw [hkval]
      rw [Nat.le_div_iff_mul_le (by omega : 0 < pairs.length / M)]
      have hmul : pairs.length / M * M ≤ pairs.length := Nat.div_mul_le_self _ _
      have hmul2 : M * (pairs.length / M) ≤ pairs.length := by
        rw [Nat.mul_comm]; exact hmul
      omega
  exact ⟨hsub, by omega, hlen, fun R h => h.sublist hsub⟩

/-- Witness for C3 at a concrete input: five pairs downsampled to three. -/
theorem downsample_pairs_spec_w :
    3 < ([(0, 0), (1, 10), (2, 20), (3, 30), (4, 40)] : List (ℕ × ℕ)).length
      ∧ (downsample_pairs [(0, 0), (1, 10), (2, 20), (3, 30), (4, 40)] 3).length = 3 :=
  ⟨by decide,
    (downsample_pairs_spec [(0, 0), (1, 10), (2, 20), (3, 30), (4, 40)] 3 (by decide)).2.2.1⟩

/-- Counterexample for C2: an item with `start_time` set but `end_time`
unset renders with no time tag at all — `to_string` never emits the
placeholder, contradicting the claimed placeholder-bearing tag. -/
theorem to_string_placeholder_cex :
    to_string { text := "hi", start_time := some 0 } = "hi"
      ∧ spec_render_nonkeyframe { text := "hi", start_time := some 0 } =
          "[time: 00:00:00.000---:--:--.---] hi"
      ∧ to_string { text := "hi", start_time := some 0 } ≠
          spec_render_nonkeyframe { text := "hi", start_time := some 0 } := by
  refine ⟨by decide, by decide, by decide⟩

/-- C2 (amended): for every item whose text does not start with the
keyframe marker, `to_string` prepends the time-range tag
`[time: HH:MM:SS.mmm-HH:MM:SS.mmm]` only when both `start_time` and
`end_time` are set, followed by the optional speaker tag and the raw
text; when either bound is unset no time tag is emitted (the placeholder
of `_format_ms` is unreachable from `to_string`). -/
theorem to_string_time_tag_only_when_both :
    ∀ it : ConversationItem, sStartsWith it.text KEYFRAME_TAG = false →
      to_string it = amended_render_nonkeyframe it := by
  intro it h
  cases hs : it.start_time with
  | none =>
    cases he : it.end_time with
    | none => simp [to_string, amended_render_nonkeyframe, h, hs, he]
    | some e => simp [to_string, amended_render_nonkeyframe, h, hs, he]
  | some s =>
    cases he : it.end_time with
    | none => simp [to_string, amended_render_nonkeyframe, h, hs, he]
    | some e => simp [to_string, amended_render_nonkeyframe, h, hs, he]

/-- Witness for C2 (amended) at concrete items: full tag with both
bounds and a speaker, raw text alone with a missing bound. -/
theorem to_string_time_tag_only_when_both_w :
    to_string
        { text := "ok", start_time := some 1000, end_time := some 2500, speaker := some "S1" } =
        amended_render_nonkeyframe
          { text := "ok", start_time := some 1000, end_time := some 2500, speaker := some "S1" }
      ∧ to_string
          { text := "ok", start_time := some 1000, end_time := some 2500, speaker := some "S1" } =
          "[time: 00:00:01.000-00:00:02.500] [speaker:S1] ok"
      ∧ to_string { text := "raw", end_time := some 7 } = "raw" := by
  refine ⟨to_string_time_tag_only_when_both _ (by decide), by decide, by decide⟩

theorem ordering_lt_beq_lt : (Ordering.lt == Ordering.lt) = true := rfl

theorem ordering_eq_beq_lt : (Ordering.eq == Ordering.lt) = false := rfl

theorem ordering_gt_beq_lt : (Ordering.gt == Ordering.lt) = false := rfl

theorem charListLt_irrefl : ∀ l : List Char, charListLt l l = false := by
  intro l
  induction l with
  | nil => rfl
  | cons a as ih => simp [charListLt, ih, lt_irrefl]

theorem sLt_irrefl (a : String) : sLt a a = false := charListLt_irrefl a.data

theorem charListLt_asymm : ∀ l m : List Char,
    charListLt l m = true → charListLt m l = false := by
  intro l
  induction l with
  | nil =>
    intro m h
    cases m with
    | nil => cases h
    | cons b bs => rfl
  | cons a as ih =>
    intro m h
    cases m with
    | nil => cases h
    | cons b bs =>
      simp only [charListLt, Bool.or_eq_true, Bool.and_eq_true, decide_eq_true_eq] at h ⊢
      rcases h with hab | ⟨hab, hrec⟩
      · simp [lt_asymm hab, (ne_of_gt hab : b ≠ a)]
      · subst hab
        simp [lt_irrefl, ih bs hrec]

theorem sLt_asymm (a b : String) (h : sLt a b = true) : sLt b a = false :=
  charListLt_asymm a.data b.data h

theorem charListLt_trichotomy : ∀ l m : List Char,
    charListLt l m = true ∨ charListLt m l = true ∨ l = m := by
  intro l
  induction l with
  | nil =>
    intro m
    cases m with
    | nil => exact Or.inr (Or.inr rfl)
    | cons b bs => exact Or.inl rfl
  | cons a as ih =>
    intro m
    cases m with
    | nil => exact Or.inr (Or.inl rfl)
    | cons b bs =>
      rcases lt_trichotomy a b with hab | hab | hab
      · exact Or.inl (by simp [charListLt, hab])
      · subst hab
        rcases ih bs with h | h | h
        · exact Or.inl (by simp [charListLt, h])
        · exact Or.inr (Or.inl (by simp [charListLt, h]))
        · exact Or.inr (Or.inr (by rw [h]))
      · exact Or.inr (Or.inl (by simp [charListLt, hab]))

theorem sLt_trichotomy (a b : String) : sLt a b = true ∨ sLt b a = true ∨ a = b := by
  obtain ⟨la⟩ := a
  obtain ⟨lb⟩ := b
  rcases charListLt_trichotomy la lb with h | h | h
  · exact Or.inl h
  · exact Or.inr (Or.inl h)
  · exact Or.inr (Or.inr (by rw [h]))

/-- Counterexample for C1: the dataclass order compares `text` first, so
an item with the smaller `(start_time, end_time)` but larger `text`
sorts after it, contradicting consistency with the claimed
`(start_time, end_time, text)` lexicographic comparison. -/
theorem item_order_text_first_cex :
    spec_time_lex_lt { text := "b", start_time := some 1, end_time := some 1 }
        { text := "a", start_time := some 2, end_time := some 2 } = some true
      ∧ pyLtItem { text := "b", start_time := some 1, end_time := some 1 }
          { text := "a", start_time := some 2, end_time := some 2 } = some false
      ∧ pyLtItem { text := "a", start_time := some 2, end_time := some 2 }
          { text := "b", start_time := some 1, end_time := some 1 } = some true := by
  refine ⟨by decide, by decide, by decide⟩

/-- C1 (amended): the order `sorted` applies in `build_docling_document`
compares the dataclass fields in declaration order, so on items with
both timestamps set and no speaker/word metadata it is a total order
consistent with lexicographic comparison of `(text, start_time,
end_time)` — primarily by `text`, not by `start_time`. -/
theorem item_order_declaration_order :
    ∀ (a b : ConversationItem),
      a.start_time.isSome = true → a.end_time.isSome = true →
      b.start_time.isSome = true → b.end_time.isSome = true →
      a.speaker_id = none → b.speaker_id = none →
      a.speaker = none → b.speaker = none → a.words = [] → b.words = [] →
      (pyLtItem a b = some true ↔ text_first_lex_lt a b)
        ∧ (pyLtItem a b = some true ∨ pyLtItem b a = some true ∨ a = b) := by
  intro a b ha1 ha2 hb1 hb2 hia hib hpa hpb hwa hwb
  obtain ⟨ta, sa, ea, ia, pa, wa⟩ := a
  obtain ⟨tb, sb, eb, ib, pb, wb⟩ := b
  simp only at ha1 ha2 hb1 hb2 hia hib hpa hpb hwa hwb
  subst hia hib hpa hpb hwa hwb
  obtain ⟨x1, rfl⟩ := Option.isSome_iff_exists.mp ha1
  obtain ⟨x2, rfl⟩ := Option.isSome_iff_exists.mp ha2
  obtain ⟨y1, rfl⟩ := Option.isSome_iff_exists.mp hb1
  obtain ⟨y2, rfl⟩ := Option.isSome_iff_exists.mp hb2
  rcases sLt_trichotomy ta tb with ht | ht | ht
  · have hlt : pyLtItem ⟨ta, some x1, some x2, none, none, []⟩
        ⟨tb, some y1, some y2, none, none, []⟩ = some true := by
      simp [pyLtItem, pyCmpItem, pyCmpStr, pyThen, ht, ordering_lt_beq_lt]
    refine ⟨?_, Or.inl hlt⟩
    rw [hlt]
    exact iff_of_true rfl (Or.inl ht)
  · have hf : sLt ta tb = false := sLt_asymm tb ta ht
    have hgt : pyLtItem ⟨ta, some x1, some x2, none, none, []⟩
        ⟨tb, some y1, some y2, none, none, []⟩ = some false := by
      simp [pyLtItem, pyCmpItem, pyCmpStr, pyThen, hf, ht, ordering_gt_beq_lt]
    have hrev : pyLtItem ⟨tb, some y1, some y2, none, none, []⟩
        ⟨ta, some x1, some x2, none, none, []⟩ = some true := by
      simp [pyLtItem, pyCmpItem, pyCmpStr, pyThen, ht, ordering_lt_beq_lt]
    refine ⟨?_, Or.inr (Or.inl hrev)⟩
    rw [hgt]
    refine iff_of_false (by simp) ?_
    intro h
    rcases h with h | ⟨hte, _⟩
    · rw [hf] at h
      cases h
    · cases hte
      rw [sLt_irrefl] at ht
      cases ht
  · subst ht
    have hstr : pyCmpStr ta ta = Ordering.eq := by simp [pyCmpStr, sLt_irrefl]
    rcases lt_trichotomy x1 y1 with h1 | h1 | h1
    · have hlt : pyLtItem ⟨ta, some x1, some x2, none, none, []⟩
          ⟨ta, some y1, some y2, none, none, []⟩ = some true := by
        simp [pyLtItem, pyCmpItem, pyCmpQ, pyThen, hstr, h1, ordering_lt_beq_lt]
      refine ⟨?_, Or.inl hlt⟩
      rw [hlt]
      exact iff_of_true rfl (Or.inr ⟨rfl, Or.inl ⟨x1, y1, rfl, rfl, h1⟩⟩)
    · subst h1
      rcases lt_trichotomy x2 y2 with h2 | h2 | h2
      · have hlt : pyLtItem ⟨ta, some x1, some x2, none, none, []⟩
            ⟨ta, some x1, some y2, none, none, []⟩ = some true := by
          simp [pyLtItem, pyCmpItem, pyCmpQ, pyThen, hstr, lt_irrefl, h2,
            ordering_lt_beq_lt]
        refine ⟨?_, Or.inl hlt⟩
        rw [hlt]
        exact iff_of_true rfl (Or.inr ⟨rfl, Or.inr ⟨rfl, x2, y2, rfl, rfl, h2⟩⟩)
      · subst h2
        have heq : pyLtItem ⟨ta, some x1, some x2, none, none, []⟩
            ⟨ta, some x1, some x2, none, none, []⟩ = some false := by
          simp [pyLtItem, pyCmpItem, pyCmpQ, pyCmpZ, pyCmpStrOpt, pyCmpWords, pyThen,
            hstr, lt_irrefl, ordering_eq_beq_lt]
        refine ⟨?_, Or.inr (Or.inr rfl)⟩
        rw [heq]
        refine iff_of_false (by simp) ?_
        intro h
        rcases h with h | ⟨_, h⟩
        · rw [sLt_irrefl] at h
          cases h
        · rcases h with ⟨u, v, hu, hv, huv⟩ | ⟨_, u, v, hu, hv, huv⟩ <;>
            (cases hu; cases hv; exact absurd huv (lt_irrefl _))
      · have hgt : pyLtItem ⟨ta, some x1, some x2, none, none, []⟩
            ⟨ta, some x1, some y2, none, none, []⟩ = some false := by
          simp [pyLtItem, pyCmpItem, pyCmpQ, pyThen, hstr, lt_irrefl, lt_asymm h2, h2,
            ordering_gt_beq_lt]
        have hrev : pyLtItem ⟨ta, some x1, some y2, none, none, []⟩
            ⟨ta, some x1, some x2, none, none, []⟩ = some true := by
          simp [pyLtItem, pyCmpItem, pyCmpQ, pyThen, hstr, lt_irrefl, h2,
            ordering_lt_beq_lt]
        refine ⟨?_, Or.inr (Or.inl hrev)⟩
        rw [hgt]
        refine iff_of_false (by simp) ?_
        intro h
        rcases h with h | ⟨_, h⟩
        · rw [sLt_irrefl] at h
          cases h
        · rcases h with ⟨u, v, hu, hv, huv⟩ | ⟨hse, u, v, hu, hv, huv⟩
          · cases hu; cases hv; exact absurd huv (lt_irrefl _)
          · cases hu; cases hv; exact absurd huv (lt_asymm h2)
    · have hgt : pyLtItem ⟨ta, some x1, some x2, none, none, []⟩
          ⟨ta, some y1, some y2, none, none, []⟩ = some false := by
        simp [pyLtItem, pyCmpItem, pyCmpQ, pyThen, hstr, lt_asymm h1, h1,
          ordering_gt_beq_lt]
      have hrev : pyLtItem ⟨ta, some y1, some y2, none, none, []⟩
          ⟨ta, some x1, some x2, none, none, []⟩ = some true := by
        simp [pyLtItem, pyCmpItem, pyCmpQ, pyThen, hstr, h1, ordering_lt_beq_lt]
      refine ⟨?_, Or.inr (Or.inl hrev)⟩
      rw [hgt]
      refine iff_of_false (by simp) ?_
      intro h
      rcases h with h | ⟨_, h⟩
      · rw [sLt_irrefl] at h
        cases h
      · rcases h with ⟨u, v, hu, hv, huv⟩ | ⟨hse, u, v, hu, hv, huv⟩
        · cases hu; cases hv; exact absurd huv (lt_asymm h1)
        · injection hse with hse2
          subst hse2
          exact absurd h1 (lt_irrefl _)

/-- Witness for C1 (amended) at concrete items: `text` decides before
the timestamps. -/
theorem item_order_declaration_order_w :
    pyLtItem { text := "a", start_time := some 5, end_time := some 5 }
        { text := "b", start_time := some 1, end_time := some 1 } = some true :=
  ((item_order_declaration_order
      { text := "a", start_time := some 5, end_time := some 5 }
      { text := "b", start_time := some 1, end_time := some 1 }
      rfl rfl rfl rfl rfl rfl rfl rfl rfl rfl).1).mpr (Or.inl (by decide))

theorem loopGo_spec (out : ℕ → AttemptOut) (retries : ℕ) :
    ∀ (fuel attempt : ℕ), 1 ≤ attempt → attempt ≤ retries → attempt + fuel = retries + 1 →
      1 ≤ (loopGo out retries attempt fuel).attempts
        ∧ attempt + (loopGo out retries attempt fuel).attempts ≤ retries + 1
        ∧ (loopGo out retries attempt fuel).sleeps =
            (List.range' attempt ((loopGo out retries attempt fuel).attempts - 1)).map
              (fun a => 2 ^ a)
        ∧ (∀ a, attempt ≤ a → a + 1 < attempt + (loopGo out retries attempt fuel).attempts →
            retryable (out a) = true)
        ∧ ((loopGo out retries attempt fuel).exit = .netRaise →
            out (attempt + (loopGo out retries attempt fuel).attempts - 1) = .netError
              ∧ attempt + (loopGo out retries attempt fuel).attempts - 1 = retries)
        ∧ (∀ s b, (loopGo out retries attempt fuel).exit = .response s b →
            out (attempt + (loopGo out retries attempt fuel).attempts - 1) = .resp s b
              ∧ (s < 500 ∨ attempt + (loopGo out retries attempt fuel).attempts - 1 = retries)) := by
  intro fuel
  induction fuel with
  | zero =>
    intro attempt h1 h2 h3
    omega
  | succ fuel ih =>
    intro attempt h1 h2 h3
    cases ho : out attempt with
    | netError =>
      by_cases hlt : attempt < retries
      · obtain ⟨i1, i2, i3, i4, i5, i6⟩ := ih (attempt + 1) (by omega) (by omega) (by omega)
        simp only [loopGo, ho, if_pos hlt]
        refine ⟨by omega, by omega, ?_, ?_, ?_, ?_⟩
        · have hk : (loopGo out retries (attempt + 1) fuel).attempts + 1 - 1 =
              ((loopGo out retries (attempt + 1) fuel).attempts - 1) + 1 := by omega
          rw [hk, List.range'_succ, List.map_cons, i3]
        · intro a ha hb
          rcases eq_or_lt_of_le ha with rfl | hlt2
          · rw [ho]; rfl
          · exact i4 a (by omega) (by omega)
        · intro hexit
          have harr : attempt + ((loopGo out retries (attempt + 1) fuel).attempts + 1) - 1 =
              attempt + 1 + (loopGo out retries (attempt + 1) fuel).attempts - 1 := by omega
          rw [harr]
          exact i5 hexit
        · intro s b hexit
          have harr : attempt + ((loopGo out retries (attempt + 1) fuel).attempts + 1) - 1 =
              attempt + 1 + (loopGo out retries (attempt + 1) fuel).attempts - 1 := by omega
          rw [harr]
          exact i6 s b hexit
      · simp only [loopGo, ho, if_neg hlt]
        refine ⟨le_refl 1, by omega, by simp, ?_, ?_, ?_⟩
        · intro a ha hb
          omega
        · intro _
          have hi : attempt + 1 - 1 = attempt := by omega
          rw [hi, ho]
          exact ⟨rfl, by omega⟩
        · intro s b hx
          cases hx
    | resp status body =>
      by_cases hc : 500 ≤ status ∧ attempt < retries
      · obtain ⟨i1, i2, i3, i4, i5, i6⟩ := ih (attempt + 1) (by omega) (by omega) (by omega)
        simp only [loopGo, ho, if_pos hc]
        refine ⟨by omega, by omega, ?_, ?_, ?_, ?_⟩
        · have hk : (loopGo out retries (attempt + 1) fuel).attempts + 1 - 1 =
              ((loopGo out retries (attempt + 1) fuel).attempts - 1) + 1 := by omega
          rw [hk, List.range'_succ, List.map_cons, i3]
        · intro a ha hb
          rcases eq_or_lt_of_le ha with rfl | hlt2
          · rw [ho]
            simp [retryable, hc.1]
          · exact i4 a (by omega) (by omega)
        · intro hexit
          have harr : attempt + ((loopGo out retries (attempt + 1) fuel).attempts + 1) - 1 =
              attempt + 1 + (loopGo out retries (attempt + 1) fuel).attempts - 1 := by omega
          rw [harr]
          exact i5 hexit
        · intro s b hexit
          have harr : attempt + ((loopGo out retries (attempt + 1) fuel).attempts + 1) - 1 =
              attempt + 1 + (loopGo out retries (attempt + 1) fuel).attempts - 1 := by omega
          rw [harr]
          exact i6 s b hexit
      · simp only [loopGo, ho, if_neg hc]
        refine ⟨le_refl 1, by omega, by simp, ?_, ?_, ?_⟩
        · intro a ha hb
          omega
        · intro hx
          cases hx
        · intro s b hx
          injection hx with hs hb2
          subst hs
          subst hb2
          have hi : attempt + 1 - 1 = attempt := by omega
          rw [hi, ho]
          exact ⟨rfl, by omega⟩

/-- C8: `_transcribe_direct` performs at most `retries` attempts, sleeps
`2 ^ attempt` seconds exactly between consecutive attempts, retries only
on network errors and status ≥ 500 responses, and stops immediately on
any response below 500 (success or client error).  The run's result is
classified by the outcome of its final attempt, whatever attempt that
is: a network error on the final attempt (only possible once retries are
exhausted) raises `AsrServiceError`; a final response with status ≥ 500
also means retries were exhausted; a non-200 final response raises
`AsrServiceError`; a 200 final response with an undecodable JSON body or
a non-`Success` code raises `AsrServiceError` without further retries;
and a 200 final response with an absent or `Success` code is parsed by
`_parse_items`. -/
theorem transcribe_direct_retry_policy :
    ∀ (out : ℕ → AttemptOut) (retries : ℕ), 1 ≤ retries →
      (transcribe_direct out retries).attempts ≤ retries
        ∧ (transcribe_direct out retries).sleeps =
            (List.range' 1 ((transcribe_direct out retries).attempts - 1)).map (fun a => 2 ^ a)
        ∧ (∀ a, 1 ≤ a → a + 1 < 1 + (transcribe_direct out retries).attempts →
            retryable (out a) = true)
        ∧ (∀ s b, out 1 = .resp s b → s < 500 → (transcribe_direct out retries).attempts = 1)
        ∧ ((∀ a, 1 ≤ a → a ≤ retries → out a = .netError) →
            (transcribe_direct out retries).result = .error .network)
        ∧ (∀ s b, out 1 = .resp s b → s < 500 → s ≠ 200 →
            (transcribe_direct out retries).result = .error (.badStatus s))
        ∧ (out 1 = .resp 200 .badJson →
            (transcribe_direct out retries).result = .error .badJson
              ∧ (transcribe_direct out retries).attempts = 1)
        ∧ (∀ c result, out 1 = .resp 200 (.json (some c) result) → c ≠ "Success" →
            (transcribe_direct out retries).result = .error (.errorCode c)
              ∧ (transcribe_direct out retries).attempts = 1)
        ∧ (∀ result, out 1 = .resp 200 (.json none result) →
            (transcribe_direct out retries).result = .ok (parse_items result))
        ∧ (∀ s b, out (transcribe_direct out retries).attempts = .resp s b → s ≠ 200 →
            (transcribe_direct out retries).result = .error (.badStatus s))
        ∧ (∀ s b, out (transcribe_direct out retries).attempts = .resp s b → 500 ≤ s →
            (transcribe_direct out retries).attempts = retries)
        ∧ (out (transcribe_direct out retries).attempts = .netError →
            (transcribe_direct out retries).result = .error .network
              ∧ (transcribe_direct out retries).attempts = retries)
        ∧ (out (transcribe_direct out retries).attempts = .resp 200 .badJson →
            (transcribe_direct out retries).result = .error .badJson)
        ∧ (∀ c result,
            out (transcribe_direct out retries).attempts = .resp 200 (.json (some c) result) →
            c ≠ "Success" → (transcribe_direct out retries).result = .error (.errorCode c))
        ∧ (∀ result, out (transcribe_direct out retries).attempts = .resp 200 (.json none result) →
            (transcribe_direct out retries).result = .ok (parse_items result))
        ∧ (∀ result,
            out (transcribe_direct out retries).attempts =
              .resp 200 (.json (some "Success") result) →
            (transcribe_direct out retries).result = .ok (parse_items result)) := by
  intro out retries hr
  obtain ⟨s1, s2, s3, s4, s5, s6⟩ := loopGo_spec out retries retries 1 (le_refl 1) hr (by omega)
  cases retries with
  | zero => omega
  | succ f =>
    have hstop : ∀ s b, out 1 = .resp s b → ¬(500 ≤ s) →
        loopGo out (f + 1) 1 (f + 1) =
          { exit := .response s b, sleeps := [], attempts := 1 } := by
      intro s b h1 hs
      simp only [loopGo, h1]
      rw [if_neg (by omega)]
    have hT : (transcribe_direct out (f + 1)).attempts =
        (loopGo out (f + 1) 1 (f + 1)).attempts := by
      simp [transcribe_direct]
    have hTr : (transcribe_direct out (f + 1)).result =
        processResponse (loopGo out (f + 1) 1 (f + 1)).exit := by
      simp [transcribe_direct]
    have hidx : 1 + (loopGo out (f + 1) 1 (f + 1)).attempts - 1 =
        (loopGo out (f + 1) 1 (f + 1)).attempts := by
      omega
    have hfinal : ∀ s b, out (loopGo out (f + 1) 1 (f + 1)).attempts = .resp s b →
        (loopGo out (f + 1) 1 (f + 1)).exit = .response s b := by
      intro s b ho
      cases hexit : (loopGo out (f + 1) 1 (f + 1)).exit with
      | netRaise =>
        obtain ⟨hn, _⟩ := s5 hexit
        rw [hidx, ho] at hn
        cases hn
      | response s2 b2 =>
        obtain ⟨hn, _⟩ := s6 s2 b2 hexit
        rw [hidx, ho] at hn
        injection hn with hs hb
        subst hs
        subst hb
        rfl
    refine ⟨?_, ?_, ?_, ?_, ?_, ?_, ?_, ?_, ?_, ?_, ?_, ?_, ?_, ?_, ?_, ?_⟩
    · omega
    · simpa [transcribe_direct] using s3
    · intro a ha hb
      exact s4 a ha (by simpa [transcribe_direct] using hb)
    · intro s b h1 hs
      simp [transcribe_direct, hstop s b h1 (by omega)]
    · intro hall
      cases hexit : (loopGo out (f + 1) 1 (f + 1)).exit with
      | response s b =>
        obtain ⟨ho, _⟩ := s6 s b hexit
        rw [hall _ (by omega) (by omega)] at ho
        cases ho
      | netRaise =>
        simp [transcribe_direct, processResponse, hexit]
    · intro s b h1 hs hs200
      simp [transcribe_direct, hstop s b h1 (by omega), processResponse, hs200]
    · intro h1
      constructor
      · simp [transcribe_direct, hstop 200 .badJson h1 (by omega), processResponse]
      · simp [transcribe_direct, hstop 200 .badJson h1 (by omega)]
    · intro c result h1 hc
      constructor
      · simp [transcribe_direct, hstop 200 (.json (some c) result) h1 (by omega),
          processResponse, hc]
      · simp [transcribe_direct, hstop 200 (.json (some c) result) h1 (by omega)]
    · intro result h1
      simp [transcribe_direct, hstop 200 (.json none result) h1 (by omega), processResponse]
    · intro s b ho hs
      rw [hT] at ho
      rw [hTr, hfinal s b ho]
      simp [processResponse, hs]
    · intro s b ho h5
      rw [hT] at ho ⊢
      obtain ⟨_, hd⟩ := s6 s b (hfinal s b ho)
      rw [hidx] at hd
      omega
    · intro ho
      rw [hT] at ho
      cases hexit : (loopGo out (f + 1) 1 (f + 1)).exit with
      | response s b =>
        obtain ⟨hn, _⟩ := s6 s b hexit
        rw [hidx, ho] at hn
        cases hn
      | netRaise =>
        obtain ⟨_, hend⟩ := s5 hexit
        rw [hidx] at hend
        constructor
        · rw [hTr, hexit]
          rfl
        · rw [hT]
          omega
    · intro ho
      rw [hT] at ho
      rw [hTr, hfinal 200 .badJson ho]
      simp [processResponse]
    · intro c result ho hc
      rw [hT] at ho
      rw [hTr, hfinal 200 (.json (some c) result) ho]
      simp [processResponse, hc]
    · intro result ho
      rw [hT] at ho
      rw [hTr, hfinal 200 (.json none result) ho]
      simp [processResponse]
    · intro result ho
      rw [hT] at ho
      rw [hTr, hfinal 200 (.json (some "Success") result) ho]
      simp [processResponse]

/-- Witness for C8: a single 200 response with no error code stops after
one attempt and parses, within the attempt bound; a run whose every
attempt answers 503 exhausts all three retries and raises the bad-status
error from its final response. -/
theorem transcribe_direct_retry_policy_w :
    (transcribe_direct (fun _ => AttemptOut.resp 200 (RespBody.json none {})) 3).result =
        .ok (parse_items {})
      ∧ (transcribe_direct (fun _ => AttemptOut.resp 200 (RespBody.json none {})) 3).attempts
          ≤ 3
      ∧ (transcribe_direct (fun _ => AttemptOut.resp 503 RespBody.badJson) 3).result =
          .error (.badStatus 503)
      ∧ (transcribe_direct (fun _ => AttemptOut.resp 503 RespBody.badJson) 3).attempts = 3 := by
  obtain ⟨h1, h2, h3, h4, h5, h6, h7, h8, h9, h10, h11, h12, h13, h14, h15, h16⟩ :=
    transcribe_direct_retry_policy (fun _ => AttemptOut.resp 200 (RespBody.json none {})) 3
      (by decide)
  obtain ⟨g1, g2, g3, g4, g5, g6, g7, g8, g9, g10, g11, g12, g13, g14, g15, g16⟩ :=
    transcribe_direct_retry_policy (fun _ => AttemptOut.resp 503 RespBody.badJson) 3
      (by decide)
  exact ⟨h9 {} rfl, h1, g10 503 RespBody.badJson rfl (by decide), g11 503 RespBody.badJson rfl
    (by decide)⟩
